import Mathlib

/-!
# Verification of the SIMPAS data synchronization and reconciliation engine

Shallow embedding of the CSV decoder (`src/utils/csv.ts`, `src/unnamed/part_001`),
the fetch-with-fallback wrapper and the reconciliation loop of `fetchData`
(`src/App.tsx`), together with theorems settling the spec claims.

Conventions of the embedding:
* JavaScript strings are Lean `String`s; a field read from a position beyond the
  parsed array (`undefined` in JS) is modelled as the empty string `""`, which has
  the same truthiness and the same behaviour under `|| default`.
* JavaScript numbers that the code ever compares or stores are integers here
  (`Int`); `NaN` results of `parseInt` are modelled as `Option.none`.
* Epoch timestamps (`Date.now()`, `Date.parse`, `getTime()`) are `Int`
  milliseconds.  The local time zone of `new Date(y, m, d)` is taken to be UTC,
  so both date constructors land on the same civil-date epoch value.
* `created_at` is stored as the epoch-millisecond value; the source serializes it
  with `toISOString()`, which is strictly monotone in that value, so temporal
  comparisons of `created_at` coincide in the model and in the source.
-/

/-- Model of the JavaScript string-or-default idiom `s || d`: a string is falsy
exactly when it is empty. -/
def jsOrS (s d : String) : String :=
  if s = "" then d else s

/-- Accumulate the decimal value of a digit list (used by `parseIntJS`). -/
def digitsVal : List Char → Int → Int
  | [], acc => acc
  | c :: cs, acc => digitsVal cs (acc * 10 + ((c.toNat : Int) - 48))

/-- Model of ECMAScript `parseInt(s)` on decimal inputs: skip leading
whitespace, read an optional sign and then a maximal run of decimal digits;
`none` models `NaN` (no digits).  The implementation-specific hexadecimal
auto-detection (`"0x"` prefixes) is outside the model; no data of this
code base uses it. -/
def parseIntJS (s : String) : Option Int :=
  let cs := s.toList.dropWhile (fun c => c.isWhitespace)
  let signed : Int × List Char :=
    match cs with
    | '-' :: rest => (-1, rest)
    | '+' :: rest => (1, rest)
    | _ => (1, cs)
  let digits := signed.2.takeWhile (fun c => c.isDigit)
  if digits.isEmpty then none
  else some (signed.1 * digitsVal digits 0)

/-- Days from the civil epoch 1970-01-01 for a (possibly overflowing) civil
date, following the standard `days_from_civil` algorithm.  Out-of-range day
numbers extend linearly, exactly like the rollover of the JavaScript
`Date(year, month, day)` constructor. -/
def daysFromCivil (y m d : Int) : Int :=
  let yAdj : Int := if m ≤ 2 then y - 1 else y
  let era : Int := (if 0 ≤ yAdj then yAdj else yAdj - 399) / 400
  let yoe : Int := yAdj - era * 400
  let mp : Int := (m + 9) % 12
  let doy : Int := (153 * mp + 2) / 5 + d - 1
  let doe : Int := yoe * 365 + yoe / 4 - yoe / 100 + doy
  era * 146097 + doe - 719468

/-- Epoch milliseconds of midnight (UTC, per the model's time-zone convention)
of a civil date; model of both `new Date(y, m - 1, d).getTime()` and of the
timestamp of an ISO `YYYY-MM-DD` string. -/
def epochMillis (y m d : Int) : Int :=
  daysFromCivil y m d * 86400000

/-- Number of days of month `m` of year `y` (for validity checking of ISO date
strings, mirroring ECMAScript's rejection of out-of-range ISO dates). -/
def daysInMonth (y m : Int) : Int :=
  if m = 2 then
    if y % 4 = 0 ∧ (y % 100 ≠ 0 ∨ y % 400 = 0) then 29 else 28
  else if m = 4 ∨ m = 6 ∨ m = 9 ∨ m = 11 then 30
  else 31

/-- Decimal value of a digit character. -/
def digitVal (c : Char) : Int :=
  (c.toNat : Int) - 48

/-- Model of ECMAScript `Date.parse` restricted to the ECMA-mandated ISO
`YYYY-MM-DD` date-only format (interpreted as UTC midnight).  Strings that
engines reject with `NaN` — such as `"15/03/2024"` (month 15 under the legacy
`M/D/Y` reading) or `"13/13/13"` — map to `none`; implementation-specific
legacy formats are outside the model. -/
def jsDateParse (s : String) : Option Int :=
  match s.toList with
  | [y1, y2, y3, y4, '-', m1, m2, '-', d1, d2] =>
    if (y1.isDigit ∧ y2.isDigit ∧ y3.isDigit ∧ y4.isDigit) ∧
       (m1.isDigit ∧ m2.isDigit ∧ d1.isDigit ∧ d2.isDigit) then
      let y := digitVal y1 * 1000 + digitVal y2 * 100 + digitVal y3 * 10 + digitVal y4
      let m := digitVal m1 * 10 + digitVal m2
      let d := digitVal d1 * 10 + digitVal d2
      if 1 ≤ m ∧ m ≤ 12 ∧ 1 ≤ d ∧ d ≤ daysInMonth y m then
        some (epochMillis y m d)
      else none
    else none
  | _ => none

/-- Character-level model of JavaScript `String.prototype.split` with a
single-character-class separator (used for the slash-or-dash split of the raw
date text): cut the character list at every separator character, keeping empty
pieces. -/
def splitOnPred (p : Char → Bool) : List Char → List (List Char)
  | [] => [[]]
  | c :: rest =>
    if p c then [] :: splitOnPred p rest
    else
      match splitOnPred p rest with
      | [] => [[c]]
      | piece :: pieces => (c :: piece) :: pieces

/-- The date normalizer of `parseViolationsCSV` (`src/unnamed/part_001`,
lines 88–112): try standard date parsing of the raw text; on failure split on
`/` or `-` into three numeric parts and apply the day-month-year and
year-month-day heuristics; if everything fails (or the text is empty /
missing), fall back to the current wall-clock time `now`. -/
def resolveDateBase (tanggal : String) (now : Int) : Int :=
  if tanggal = "" then now
  else
    match jsDateParse tanggal with
    | some t => t
    | none =>
      let parts := (splitOnPred (fun c => c == '/' || c == '-') tanggal.toList).map
        (fun cs => String.mk cs)
      if parts.length = 3 then
        match parseIntJS (parts.getD 0 ""), parseIntJS (parts.getD 1 ""),
              parseIntJS (parts.getD 2 "") with
        | some p1, some p2, some p3 =>
          if p1 ≤ 31 ∧ p2 ≤ 12 ∧ 1000 < p3 then epochMillis p3 p2 p1
          else if 1000 < p1 ∧ p2 ≤ 12 ∧ p3 ≤ 31 then epochMillis p1 p2 p3
          else now
        | _, _, _ => now
      else now

/-- Character-level loop of `parseCSVLine` (`src/utils/csv.ts`, lines 9–25):
a `"` toggles the in-quotes flag (and is kept in the running value); a comma is
a separator only when the flag is off after processing the character. -/
def splitFieldsAux : List Char → Bool → List Char → List (List Char)
  | [], _, cur => [cur]
  | c :: rest, inQuotes, cur =>
    let inQ := if c == '"' then !inQuotes else inQuotes
    if c == ',' && !inQ then cur :: splitFieldsAux rest inQ []
    else splitFieldsAux rest inQ (cur ++ [c])

/-- Character-level model of JavaScript `String.prototype.trim`: drop
whitespace from both ends. -/
def trimChars (cs : List Char) : List Char :=
  ((cs.dropWhile Char.isWhitespace).reverse.dropWhile Char.isWhitespace).reverse

/-- Character-level model of the global doubled-quote replacement in
`parseCSVLine`: decode each non-overlapping doubled double-quote to one
double-quote, scanning left to right. -/
def decodeDoubledQuotes : List Char → List Char
  | '"' :: '"' :: rest => '"' :: decodeDoubledQuotes rest
  | c :: rest => c :: decodeDoubledQuotes rest
  | [] => []

/-- Post-processing of one raw field (`src/utils/csv.ts`, lines 28–39): trim,
strip a surrounding pair of quotes, and decode doubled quotes.  The JS
`substring(1, length - 1)` swaps its arguments when `length = 1`, leaving a
lone `"` unchanged; the `length ≤ 1` guard reproduces that. -/
def cleanField (val : List Char) : List Char :=
  let cleaned := trimChars val
  if cleaned.head? = some '"' ∧ cleaned.getLast? = some '"' then
    let stripped := if cleaned.length ≤ 1 then cleaned else cleaned.tail.dropLast
    decodeDoubledQuotes stripped
  else cleaned

/-- `parseCSVLine` (`src/utils/csv.ts`, lines 4–40): quote-aware split on
commas followed by per-field cleanup. -/
def parseCSVLine (text : String) : List String :=
  (splitFieldsAux text.toList false []).map (fun cs => String.mk (cleanField cs))

/-- The violation record of `src/types.ts` (`src/unnamed/part_000`), with the
`pelapor` field of the `src/unnamed/part_001` variant.  The two enumeration
fields are `String`s because the source populates them through unchecked
dynamic casts, so any string can occur at runtime.  `poin_pelanggaran` is an
`Int` and `created_at` the epoch-millisecond timestamp (see the header). -/
structure Violation where
  id : String
  nis : String
  nama_lengkap : String
  jenis_kelamin : String
  kelas : String
  nama_wali_kelas : String
  kontak_ortu : String
  kode_pelanggaran : String
  tanggal_pelanggaran : String
  jenis_pelanggaran : String
  kategori_pelanggaran : String
  lokasi_kejadian : String
  deskripsi : String
  status_tindak_lanjut : String
  hasil_tindak_lanjut : String
  poin_pelanggaran : Int
  pelapor : String
  created_at : Int
  deriving Repr, DecidableEq

/-- Placeholder record used only as the default of `List.getD`; theorems only
read positions that are in bounds. -/
def blankViolation : Violation :=
  { id := "", nis := "", nama_lengkap := "", jenis_kelamin := "", kelas := "",
    nama_wali_kelas := "", kontak_ortu := "", kode_pelanggaran := "",
    tanggal_pelanggaran := "", jenis_pelanggaran := "", kategori_pelanggaran := "",
    lokasi_kejadian := "", deskripsi := "", status_tindak_lanjut := "",
    hasil_tindak_lanjut := "", poin_pelanggaran := 0, pelapor := "", created_at := 0 }

instance : Inhabited Violation := ⟨blankViolation⟩

/-- Body of the `parseViolationsCSV` loop for the line at 1-based source index
`i` (`src/unnamed/part_001`, lines 70–140; `src/utils/csv.ts` agrees except for
its simpler date fallback and missing `pelapor`).  A blank line or a row with
fewer than 10 fields or an empty first field yields `none` (silently dropped).
Fields read past the end of the split array are `undefined` in JS and modelled
as `""`. -/
def parseRow (now : Int) (i : Nat) (rawLine : String) : Option Violation :=
  let line := String.mk (trimChars rawLine.toList)
  if line = "" then none
  else
    let values := parseCSVLine line
    if 10 ≤ values.length ∧ values.getD 0 "" ≠ "" then
      let kode := jsOrS (values.getD 6 "") ("SHEET-" ++ toString i)
      let tanggal := values.getD 7 ""
      let dateBase := resolveDateBase tanggal now
      some
        { id := kode
          nis := values.getD 0 ""
          nama_lengkap := values.getD 1 ""
          jenis_kelamin := values.getD 2 ""
          kelas := values.getD 3 ""
          nama_wali_kelas := values.getD 4 ""
          kontak_ortu := values.getD 5 ""
          kode_pelanggaran := kode
          tanggal_pelanggaran := tanggal
          jenis_pelanggaran := values.getD 8 ""
          kategori_pelanggaran := jsOrS (values.getD 9 "") "Ringan"
          lokasi_kejadian := values.getD 10 ""
          deskripsi := values.getD 11 ""
          status_tindak_lanjut := jsOrS (values.getD 12 "") "Menunggu Tindak Lanjut"
          hasil_tindak_lanjut := values.getD 13 ""
          poin_pelanggaran := (parseIntJS (values.getD 14 "")).getD 0
          pelapor := values.getD 15 ""
          created_at := dateBase + 1000 * (i : Int) }
    else none

/-- `parseViolationsCSV` (`src/unnamed/part_001`, lines 66–141): split the text
on newlines, skip the header line (index 0), and decode every remaining line
with `parseRow` at its source index. -/
def splitLines (csvText : String) : List String :=
  (splitOnPred (fun c => c == '\n') csvText.toList).map (fun cs => String.mk cs)

/-- `parseViolationsCSV` continued: decode all post-header lines. -/
def parseViolationsCSV (now : Int) (csvText : String) : List Violation :=
  (((splitLines csvText).enum).drop 1).filterMap (fun p => parseRow now p.1 p.2)

/-- Outcome of the network read in `fetchWithFallback` (`src/App.tsx`,
lines 40–66): either the transport layer rejects, or a response arrives with a
success flag and a body text. -/
inductive FetchOutcome where
  | transportError
  | response (ok : Bool) (body : String)
  deriving Repr, DecidableEq

/-- State of the cache entry under the cache key: absent, present but not
deserializable (a `JSON.parse` failure), or present with a record list. -/
inductive CacheVal (T : Type) where
  | corrupt
  | good (data : List T)
  deriving Repr

/-- The HTML-document check of `fetchWithFallback` (`src/App.tsx`, line 58):
the trimmed body starting with a document marker means an access wall, not
data. -/
def bodyIsHtml (body : String) : Bool :=
  "<!DOCTYPE".toList.isPrefixOf (trimChars body.toList) ||
    "<html".toList.isPrefixOf (trimChars body.toList)

/-- A network read counts as failed when the transport rejects, the HTTP
status is not ok, or the body is an HTML document (`src/App.tsx`,
lines 43–60). -/
def fetchFails (net : FetchOutcome) : Bool :=
  match net with
  | .transportError => true
  | .response ok body => !ok || bodyIsHtml body

/-- The catch-branch of `fetchWithFallback` (`src/App.tsx`, lines 67–78):
fall back to the cache entry; a missing entry re-throws, a corrupt entry
yields the empty dataset, and the cache itself is left unchanged. -/
def fallbackToCache {T : Type} (cache : Option (CacheVal T)) :
    Except Unit (List T × Bool × Option (CacheVal T)) :=
  match cache with
  | none => .error ()
  | some (.good d) => .ok (d, true, some (.good d))
  | some .corrupt => .ok ([], true, some .corrupt)

/-- `fetchWithFallback` (`src/App.tsx`, lines 35–80) as a pure function of the
network outcome and the current cache entry; the third component of a
successful result is the cache entry after the call. -/
def fetchWithFallback {T : Type} (net : FetchOutcome)
    (cache : Option (CacheVal T)) (parser : String → List T) :
    Except Unit (List T × Bool × Option (CacheVal T)) :=
  match net with
  | .transportError => fallbackToCache cache
  | .response ok body =>
    if !ok then fallbackToCache cache
    else if bodyIsHtml body then fallbackToCache cache
    else
      let data := parser body
      .ok (data, false, some (.good data))

/-- Truth value of "the call propagated an error to its caller". -/
def isHardFailure {T : Type} (r : Except Unit (List T × Bool × Option (CacheVal T))) : Bool :=
  match r with
  | .error _ => true
  | .ok _ => false

/-- A locally buffered violation (`simpas_local_violations` entries,
`src/App.tsx` lines 197–233): a violation record plus the client-clock write
timestamp `_localTimestamp` (absent on malformed entries). -/
structure LocalViolation where
  v : Violation
  localTimestamp : Option Int
  deriving Repr, DecidableEq

/-- The recency test of the reconciliation loop (`src/App.tsx`, line 119):
`_localTimestamp` must be truthy (present and nonzero) and the local write
must be less than ten minutes old. -/
def isRecent (now : Int) (l : LocalViolation) : Bool :=
  match l.localTimestamp with
  | none => false
  | some t => t != 0 && now - t < 10 * 60 * 1000

/-- Lookup in the `violationMap` built at `src/App.tsx` line 110–111: the map
is filled by iterating the remote list with `Map.set`, so for a duplicated
code the last remote record wins. -/
def mapLookup (remote : List Violation) (k : String) : Option Violation :=
  (remote.filter (fun v => v.kode_pelanggaran = k)).getLast?

/-- The fuzzy-duplicate test of `src/App.tsx` lines 126–131: some remote
record agrees with the local one on student number, violation type label,
point value, and trimmed description. -/
def isFuzzyDuplicate (remote : List Violation) (l : Violation) : Bool :=
  remote.any (fun p =>
    p.nis = l.nis ∧ p.jenis_pelanggaran = l.jenis_pelanggaran ∧
      p.poin_pelanggaran = l.poin_pelanggaran ∧
      trimChars p.deskripsi.toList = trimChars l.deskripsi.toList)

/-- One iteration of the `localViolations.forEach` loop of `src/App.tsx`
lines 115–151, acting on the pair (merged list, valid-local list). -/
def reconcileStep (now : Int) (remote : List Violation)
    (st : List Violation × List LocalViolation) (l : LocalViolation) :
    List Violation × List LocalViolation :=
  if l.v.kode_pelanggaran = "" then st
  else
    match mapLookup remote l.v.kode_pelanggaran with
    | none =>
      if isFuzzyDuplicate remote l.v then st
      else (st.1 ++ [l.v], st.2 ++ [l])
    | some sheetV =>
      if sheetV.status_tindak_lanjut ≠ l.v.status_tindak_lanjut then
        if isRecent now l then
          let idx := st.1.findIdx (fun v => v.kode_pelanggaran = l.v.kode_pelanggaran)
          (st.1.set idx l.v, st.2 ++ [l])
        else st
      else st

/-- The reconciliation of `fetchData` (`src/App.tsx`, lines 108–155): start
from the remote list and fold the local write buffer through
`reconcileStep`; the result is the merged list and the valid-local subset
that is written back to storage. -/
def reconcile (now : Int) (remote : List Violation) (buffer : List LocalViolation) :
    List Violation × List LocalViolation :=
  buffer.foldl (reconcileStep now remote) (remote, [])

/-! ## Sample data shared by the witnesses -/

/-- A remote violation with code `A1`, still pending. -/
def rvA : Violation := { blankViolation with
  id := "A1", kode_pelanggaran := "A1", nis := "100", jenis_pelanggaran := "Late",
  poin_pelanggaran := 5, deskripsi := "desc", status_tindak_lanjut := "Menunggu Tindak Lanjut" }

/-- A second remote violation with code `B2`. -/
def rvB : Violation := { blankViolation with
  id := "B2", kode_pelanggaran := "B2", nis := "200",
  status_tindak_lanjut := "Menunggu Tindak Lanjut" }

/-- A local edit of `rvA` marking it resolved, written at client clock 1000. -/
def lvA : LocalViolation :=
  { v := { rvA with status_tindak_lanjut := "Sudah Ditindak Lanjut" },
    localTimestamp := some 1000 }

/-- The exact condition under which one loop iteration keeps the local entry
in the valid-local subset (appends it to `validLocalViolations`). -/
def keeps (now : Int) (remote : List Violation) (l : LocalViolation) : Bool :=
  if l.v.kode_pelanggaran = "" then false
  else
    match mapLookup remote l.v.kode_pelanggaran with
    | none => !isFuzzyDuplicate remote l.v
    | some sheetV =>
      decide (sheetV.status_tindak_lanjut ≠ l.v.status_tindak_lanjut) && isRecent now l

/-- Invariant of the reconciliation fold: the merged list extends the remote
list; each remote position holds either the untouched remote record or a
buffered record with the same code; every position past the remote length
holds a buffered record. -/
def MergedInv (remote : List Violation) (B : List LocalViolation)
    (merged : List Violation) : Prop :=
  remote.length ≤ merged.length ∧
  (∀ i, i < remote.length →
    merged.getD i blankViolation = remote.getD i blankViolation ∨
    ∃ l, l ∈ B ∧ merged.getD i blankViolation = l.v ∧
      l.v.kode_pelanggaran = (remote.getD i blankViolation).kode_pelanggaran) ∧
  (∀ j, remote.length ≤ j → j < merged.length →
    ∃ l, l ∈ B ∧ merged.getD j blankViolation = l.v)

/-- A full CSV line sharing the date `2024-01-01`, used for the C5 witness. -/
def lineD : String := "A,B,C,D,E,F,K1,2024-01-01,I,Ringan,K,L,M,N,5"

/-- The record decoded from `lineD` at source index 3. -/
def vD3 : Violation :=
  { id := "K1", nis := "A", nama_lengkap := "B", jenis_kelamin := "C", kelas := "D",
    nama_wali_kelas := "E", kontak_ortu := "F", kode_pelanggaran := "K1",
    tanggal_pelanggaran := "2024-01-01", jenis_pelanggaran := "I",
    kategori_pelanggaran := "Ringan", lokasi_kejadian := "K", deskripsi := "L",
    status_tindak_lanjut := "M", hasil_tindak_lanjut := "N", poin_pelanggaran := 5,
    pelapor := "", created_at := epochMillis 2024 1 1 + 3000 }

/-- The record decoded from `lineD` at source index 7. -/
def vD7 : Violation :=
  { vD3 with created_at := epochMillis 2024 1 1 + 7000 }

/-- A local entry with a code unknown to the remote list and content unlike
any remote record. -/
def lvNew : LocalViolation :=
  { v := { rvB with
      kode_pelanggaran := "C3", id := "C3", nis := "300" },
    localTimestamp := some 1 }

/-- A local entry with a code unknown to the remote list but fuzzy-identical
to `rvA` (same nis, type label, points and trimmed description). -/
def lvDup : LocalViolation :=
  { v := { rvA with
      kode_pelanggaran := "Z9", id := "Z9" },
    localTimestamp := some 1 }

/-- A local entry whose code has a remote counterpart with the same status. -/
def lvConf : LocalViolation :=
  { v := rvA, localTimestamp := some 1 }

/-! ## CSV splitter lemmas (claim C6) -/

/-- Inside an open quote span, quote-free characters (commas included) are
accumulated into the current field and never split. -/
theorem splitFieldsAux_quoteFree (cs : List Char) (cur : List Char)
    (h : ∀ c ∈ cs, c ≠ '"') : splitFieldsAux cs true cur = [cur ++ cs] := by
  induction cs generalizing cur with
  | nil => simp [splitFieldsAux]
  | cons c rest ih =>
    have hc : (c == '"') = false := by
      simpa using h c (List.mem_cons_self c rest)
    have hr : ∀ x ∈ rest, x ≠ '"' := fun x hx => h x (List.mem_cons_of_mem _ hx)
    simp only [splitFieldsAux, hc, if_false, Bool.not_true, Bool.and_false, if_neg,
      Bool.false_eq_true, not_false_iff]
    rw [ih (cur ++ [c]) hr]
    simp

/-- Running through a quote-free span while in quotes and then hitting the
closing quote returns to the unquoted state with everything accumulated. -/
theorem splitFieldsAux_closeQuote (mid : List Char) (rest : List Char) (cur : List Char)
    (h : ∀ c ∈ mid, c ≠ '"') :
    splitFieldsAux (mid ++ '"' :: rest) true cur =
      splitFieldsAux rest false (cur ++ mid ++ ['"']) := by
  induction mid generalizing cur with
  | nil =>
    have hn : cur ++ ([] : List Char) ++ ['"'] = cur ++ ['"'] := by simp
    rw [List.nil_append, hn]
    rfl
  | cons c mids ih =>
    have hc : (c == '"') = false := by
      simpa using h c (List.mem_cons_self c mids)
    have hr : ∀ x ∈ mids, x ≠ '"' := fun x hx => h x (List.mem_cons_of_mem _ hx)
    simp only [List.cons_append, splitFieldsAux, hc, if_false, Bool.not_true, Bool.and_false,
      if_neg, Bool.false_eq_true, not_false_iff, List.append_eq]
    rw [ih (cur ++ [c]) hr]
    simp

/-- C6: the field splitter treats a comma inside an open double-quote span as
field content, not a separator — a fully quoted field containing a comma
decodes as exactly one field — and a doubled double-quote inside a quoted
field decodes to one literal quote after unquoting and trimming; concretely
the quoted name line decodes to exactly the two fields of the claim. -/
theorem parseCSVLine_quoted_comma :
    (∀ a b : List Char, (∀ c ∈ a, c ≠ '"') → (∀ c ∈ b, c ≠ '"') →
      (parseCSVLine (String.mk ('"' :: (a ++ [','] ++ b ++ ['"'])))).length = 1) ∧
    parseCSVLine "\"Smith, \"\"Al\"\" Jones\",5" = ["Smith, \"Al\" Jones", "5"] := by
  constructor
  · intro a b ha hb
    have hmid : ∀ c ∈ a ++ [','] ++ b, c ≠ '"' := by
      intro c hcm
      rcases List.mem_append.1 hcm with hcm | hcm
      · rcases List.mem_append.1 hcm with hcm | hcm
        · exact ha c hcm
        · simp only [List.mem_singleton] at hcm
          subst hcm; decide
      · exact hb c hcm
    unfold parseCSVLine
    rw [List.length_map]
    show (splitFieldsAux ('"' :: (a ++ [','] ++ b ++ ['"'])) false []).length = 1
    have step1 : splitFieldsAux ('"' :: (a ++ [','] ++ b ++ ['"'])) false [] =
        splitFieldsAux (a ++ [','] ++ b ++ ['"']) true ['"'] := by
      simp [splitFieldsAux]
    rw [step1]
    have assoc : a ++ [','] ++ b ++ ['"'] = (a ++ [','] ++ b) ++ '"' :: [] := by simp
    rw [assoc, splitFieldsAux_closeQuote (a ++ [','] ++ b) [] ['"'] hmid]
    simp [splitFieldsAux]
  · decide

/-- C6 witness: the general single-field statement instantiated at the
concrete claim input, hypotheses discharged by computation. -/
theorem parseCSVLine_quoted_comma_witness :
    (parseCSVLine (String.mk ('"' :: ("Smith".toList ++ [','] ++ " Jones".toList ++ ['"'])))).length = 1 ∧
    parseCSVLine "\"Smith, \"\"Al\"\" Jones\",5" = ["Smith, \"Al\" Jones", "5"] :=
  ⟨parseCSVLine_quoted_comma.1 "Smith".toList " Jones".toList (by decide) (by decide),
   parseCSVLine_quoted_comma.2⟩

/-- C7: the date normalizer maps `15/03/2024` (via the day-month-year
heuristic) and `2024-03-15` (via standard ISO parsing) to the civil date
March 15, 2024, and falls back to the current wall-clock time on the
uninterpretable `13/13/13`; being a total function it never throws. -/
theorem resolveDateBase_claimants (now : Int) :
    resolveDateBase "15/03/2024" now = epochMillis 2024 3 15 ∧
    resolveDateBase "2024-03-15" now = epochMillis 2024 3 15 ∧
    resolveDateBase "13/13/13" now = now :=
  ⟨rfl, rfl, rfl⟩

/-! ## Fetch-with-fallback (claim C4) -/

/-- C4: `fetchWithFallback` propagates an error to its caller exactly when the
network read fails (transport error, non-ok status, or an HTML body) and no
cache entry exists; a corrupt cache entry yields the empty dataset instead of
an error; a successful fetch returns the parsed records and overwrites the
cache with them. -/
theorem fetchWithFallback_contract {T : Type} (net : FetchOutcome)
    (cache : Option (CacheVal T)) (parser : String → List T) :
    (isHardFailure (fetchWithFallback net cache parser) = true ↔
      fetchFails net = true ∧ cache = none) ∧
    (fetchFails net = true → cache = some CacheVal.corrupt →
      fetchWithFallback net cache parser = .ok ([], true, some CacheVal.corrupt)) ∧
    (∀ body, net = FetchOutcome.response true body → bodyIsHtml body = false →
      fetchWithFallback net cache parser = .ok (parser body, false,
        some (CacheVal.good (parser body)))) := by
  refine ⟨?_, ?_, ?_⟩
  · cases net with
    | transportError =>
      cases cache with
      | none => simp [fetchWithFallback, fallbackToCache, isHardFailure, fetchFails]
      | some c =>
        cases c <;>
          simp [fetchWithFallback, fallbackToCache, isHardFailure, fetchFails]
    | response ok body =>
      cases ok with
      | false =>
        cases cache with
        | none => simp [fetchWithFallback, fallbackToCache, isHardFailure, fetchFails]
        | some c =>
          cases c <;>
            simp [fetchWithFallback, fallbackToCache, isHardFailure, fetchFails]
      | true =>
        by_cases hb : bodyIsHtml body = true
        · cases cache with
          | none => simp [fetchWithFallback, fallbackToCache, isHardFailure, fetchFails, hb]
          | some c =>
            cases c <;>
              simp [fetchWithFallback, fallbackToCache, isHardFailure, fetchFails, hb]
        · simp [fetchWithFallback, fallbackToCache, isHardFailure, fetchFails,
            Bool.not_eq_true _ ▸ hb, hb]
  · intro hf hc
    subst hc
    cases net with
    | transportError => simp [fetchWithFallback, fallbackToCache]
    | response ok body =>
      simp only [fetchFails] at hf
      cases ok with
      | false => simp [fetchWithFallback, fallbackToCache]
      | true =>
        simp only [Bool.not_true, Bool.false_or] at hf
        simp [fetchWithFallback, fallbackToCache, hf]
  · intro body hnet hb
    subst hnet
    simp [fetchWithFallback, hb]

/-- C4 witness: the contract evaluated at concrete outcomes — a transport
failure with empty cache is a hard failure; a non-ok status over a corrupt
cache yields the empty dataset; a successful fetch of a plain body returns
the parsed data and caches it. -/
theorem fetchWithFallback_contract_witness :
    isHardFailure (fetchWithFallback FetchOutcome.transportError
      (none : Option (CacheVal Violation)) (fun _ => [])) = true ∧
    fetchWithFallback (FetchOutcome.response false "x") (some CacheVal.corrupt)
      (fun _ => ([rvA] : List Violation)) = .ok ([], true, some CacheVal.corrupt) ∧
    fetchWithFallback (FetchOutcome.response true "plain,csv")
      (none : Option (CacheVal Violation)) (fun _ => [rvA]) =
      .ok ([rvA], false, some (CacheVal.good [rvA])) :=
  ⟨(fetchWithFallback_contract FetchOutcome.transportError none (fun _ => [])).1.mpr
      ⟨rfl, rfl⟩,
   (fetchWithFallback_contract (FetchOutcome.response false "x") (some CacheVal.corrupt)
      (fun _ => [rvA])).2.1 rfl rfl,
   (fetchWithFallback_contract (FetchOutcome.response true "plain,csv") none
      (fun _ => [rvA])).2.2 "plain,csv" rfl (by decide)⟩

/-! ## Row decoder lemmas (claims C5, C8, C9) -/

/-- Field equations of an accepted row: the decoded record's fields are the
stated functions of the split field values and the source line index. -/
theorem parseRow_some_fields {now : Int} {i : Nat} {rawLine : String} {v : Violation}
    (h : parseRow now i rawLine = some v) :
    v.poin_pelanggaran =
      (parseIntJS ((parseCSVLine (String.mk (trimChars rawLine.toList))).getD 14 "")).getD 0 ∧
    v.tanggal_pelanggaran = (parseCSVLine (String.mk (trimChars rawLine.toList))).getD 7 "" ∧
    v.created_at = resolveDateBase v.tanggal_pelanggaran now + 1000 * (i : Int) ∧
    v.kategori_pelanggaran =
      jsOrS ((parseCSVLine (String.mk (trimChars rawLine.toList))).getD 9 "") "Ringan" ∧
    v.status_tindak_lanjut =
      jsOrS ((parseCSVLine (String.mk (trimChars rawLine.toList))).getD 12 "")
        "Menunggu Tindak Lanjut" := by
  unfold parseRow at h
  dsimp only at h
  split at h
  · exact absurd h (by simp)
  · split at h
    · rw [Option.some_inj] at h
      subst h
      exact ⟨rfl, rfl, rfl, rfl, rfl⟩
    · exact absurd h (by simp)

/-- C5: for two accepted rows at source line indices `i < j` whose resolved
base dates agree (for example both carrying the same parseable date string),
the decoder assigns strictly increasing `created_at` values (base plus index
seconds), so a descending `created_at` sort places row `j` before row `i`. -/
theorem created_at_strictly_increasing (now : Int) (i j : Nat) (li lj : String)
    (vi vj : Violation) (hij : i < j)
    (hi : parseRow now i li = some vi) (hj : parseRow now j lj = some vj)
    (hbase : resolveDateBase vi.tanggal_pelanggaran now =
      resolveDateBase vj.tanggal_pelanggaran now) :
    vi.created_at < vj.created_at := by
  obtain ⟨-, -, hci, -, -⟩ := parseRow_some_fields hi
  obtain ⟨-, -, hcj, -, -⟩ := parseRow_some_fields hj
  rw [hci, hcj, hbase]
  have : (i : Int) < (j : Int) := by exact_mod_cast hij
  omega

/-- C5 witness: rows at indices 3 and 7 sharing the date `2024-01-01` get
strictly increasing `created_at` values. -/
theorem created_at_strictly_increasing_witness : vD3.created_at < vD7.created_at :=
  created_at_strictly_increasing 0 3 7 lineD lineD vD3 vD7 (by decide) (by decide)
    (by decide) (by decide)

/-- C8 counterexample: an unrecognized non-empty category (`Aneh`) and
follow-up status (`Odd`) are passed through unchanged rather than defaulted,
refuting the claim that any value outside the closed enumerations yields the
defaults. -/
theorem enum_passthrough_counterexample :
    (parseViolationsCSV 0 "h\nA,B,C,D,E,F,G,H,I,Aneh,K,L,Odd").map
        (fun v => (v.kategori_pelanggaran, v.status_tindak_lanjut)) = [("Aneh", "Odd")] ∧
    ("Aneh" ≠ "Ringan" ∧ "Aneh" ≠ "Sedang" ∧ "Aneh" ≠ "Berat") ∧
    ("Odd" ≠ "Menunggu Tindak Lanjut" ∧ "Odd" ≠ "Sudah Ditindak Lanjut") := by
  refine ⟨by decide, by decide, by decide⟩

/-- C8 (amended): a missing or empty category field defaults to `Ringan` and a
missing or empty follow-up-status field defaults to `Menunggu Tindak Lanjut`;
non-empty values — recognized or not — are stored unchanged. -/
theorem enum_defaults (now : Int) (i : Nat) (line : String) (v : Violation)
    (h : parseRow now i line = some v) :
    ((parseCSVLine (String.mk (trimChars line.toList))).getD 9 "" = "" →
      v.kategori_pelanggaran = "Ringan") ∧
    ((parseCSVLine (String.mk (trimChars line.toList))).getD 9 "" ≠ "" →
      v.kategori_pelanggaran = (parseCSVLine (String.mk (trimChars line.toList))).getD 9 "") ∧
    ((parseCSVLine (String.mk (trimChars line.toList))).getD 12 "" = "" →
      v.status_tindak_lanjut = "Menunggu Tindak Lanjut") ∧
    ((parseCSVLine (String.mk (trimChars line.toList))).getD 12 "" ≠ "" →
      v.status_tindak_lanjut = (parseCSVLine (String.mk (trimChars line.toList))).getD 12 "") := by
  obtain ⟨-, -, -, hk, hs⟩ := parseRow_some_fields h
  refine ⟨fun he => ?_, fun hne => ?_, fun he => ?_, fun hne => ?_⟩
  · rw [hk, he]; rfl
  · rw [hk, jsOrS, if_neg hne]
  · rw [hs, he]; rfl
  · rw [hs, jsOrS, if_neg hne]

/-- C8 witness: a row with empty category and status fields decodes to the
two defaults. -/
theorem enum_defaults_witness :
    ∃ v : Violation, parseRow 0 1 "A,B,C,D,E,F,G,H,I,,K,L," = some v ∧
      v.kategori_pelanggaran = "Ringan" ∧ v.status_tindak_lanjut = "Menunggu Tindak Lanjut" := by
  have hsome : (parseRow 0 1 "A,B,C,D,E,F,G,H,I,,K,L,").isSome = true := by decide
  obtain ⟨v, hv⟩ := Option.isSome_iff_exists.mp hsome
  have h := enum_defaults 0 1 "A,B,C,D,E,F,G,H,I,,K,L," v hv
  exact ⟨v, hv, h.1 (by decide), h.2.2.1 (by decide)⟩

/-- C9 counterexample: a points field containing `-5` decodes to the negative
point value `-5`, refuting the invariant that every decoded record has a
non-negative point value. -/
theorem poin_negative_counterexample :
    (parseViolationsCSV 0 "h\nA,B,C,D,E,F,G,H,I,Ringan,K,L,M,N,-5").map
        (fun v => v.poin_pelanggaran) = [-5] ∧ ¬ (0 : Int) ≤ -5 := by
  refine ⟨by decide, by decide⟩

/-- Every decoded record arises from some line of the input at some source
index. -/
theorem mem_parseViolationsCSV {now : Int} {csvText : String} {v : Violation}
    (h : v ∈ parseViolationsCSV now csvText) :
    ∃ i line, line ∈ splitLines csvText ∧ parseRow now i line = some v := by
  unfold parseViolationsCSV at h
  obtain ⟨⟨i, line⟩, hmem, hrow⟩ := List.mem_filterMap.mp h
  have henum : (i, line) ∈ (splitLines csvText).enum := List.mem_of_mem_drop hmem
  have hline : line ∈ splitLines csvText := by
    have := List.mem_enum_iff_getElem?.mp henum
    exact List.getElem?_mem this
  exact ⟨i, line, hline, hrow⟩

/-- C9 (amended): a missing or non-numeric points field decodes to 0, and for
any input CSV whose points fields never parse to a negative integer, every
decoded record has a non-negative point value.  (A points field parsing to a
negative integer is stored as-is, so the unconditional invariant fails; see
the counterexample.) -/
theorem poin_nonneg_of_no_negative_fields (now : Int) (csvText : String)
    (h : ∀ line ∈ splitLines csvText,
      0 ≤ ((parseIntJS ((parseCSVLine (String.mk (trimChars line.toList))).getD 14 "")).getD 0 : Int)) :
    ∀ v ∈ parseViolationsCSV now csvText, 0 ≤ v.poin_pelanggaran := by
  intro v hv
  obtain ⟨i, line, hline, hrow⟩ := mem_parseViolationsCSV hv
  obtain ⟨hpoin, -, -, -, -⟩ := parseRow_some_fields hrow
  rw [hpoin]
  exact h line hline

/-- C9 witness: the record decoded from the sample line (points field `5`) of
a CSV with no negative points fields has a non-negative point value. -/
theorem poin_nonneg_of_no_negative_fields_witness : (0 : Int) ≤ vD3.poin_pelanggaran :=
  poin_nonneg_of_no_negative_fields 0 ("h\n\n\n" ++ lineD) (by decide) vD3 (by decide)

/-! ## Reconciliation lemmas (claims C1, C2, C3, C10) -/

/-- The valid-local component of one loop iteration: the entry is appended
exactly when `keeps` holds. -/
theorem reconcileStep_snd (now : Int) (remote : List Violation)
    (st : List Violation × List LocalViolation) (l : LocalViolation) :
    (reconcileStep now remote st l).2 =
      if keeps now remote l then st.2 ++ [l] else st.2 := by
  unfold reconcileStep keeps
  by_cases hk : l.v.kode_pelanggaran = ""
  · simp [hk]
  · cases hmap : mapLookup remote l.v.kode_pelanggaran with
    | none =>
      by_cases hd : isFuzzyDuplicate remote l.v
      · simp [hk, hmap, hd]
      · simp [hk, hmap, hd]
    | some sheetV =>
      by_cases hst : sheetV.status_tindak_lanjut ≠ l.v.status_tindak_lanjut
      · by_cases hr : isRecent now l
        · simp [hk, hmap, hst, hr]
        · simp [hk, hmap, hst, hr]
      · simp [hk, hmap, hst]

/-- The valid-local component of folding the buffer is the filtered buffer. -/
theorem foldl_reconcileStep_snd (now : Int) (remote : List Violation)
    (bs : List LocalViolation) (st : List Violation × List LocalViolation) :
    (bs.foldl (reconcileStep now remote) st).2 = st.2 ++ bs.filter (keeps now remote) := by
  induction bs generalizing st with
  | nil => simp
  | cons b bs ih =>
    rw [List.foldl_cons, ih, List.filter_cons, reconcileStep_snd]
    by_cases hb : keeps now remote b
    · simp [hb]
    · simp [hb]

/-- The valid-local subset returned by `reconcile` is exactly the subsequence
of buffer entries satisfying `keeps`. -/
theorem reconcile_snd (now : Int) (remote : List Violation) (buffer : List LocalViolation) :
    (reconcile now remote buffer).2 = buffer.filter (keeps now remote) := by
  unfold reconcile
  rw [foldl_reconcileStep_snd]
  rfl

/-- A successful map lookup exhibits a remote record with the looked-up
code. -/
theorem exists_kode_of_mapLookup_some {remote : List Violation} {k : String} {R : Violation}
    (h : mapLookup remote k = some R) : ∃ r ∈ remote, r.kode_pelanggaran = k := by
  unfold mapLookup at h
  have hne : remote.filter (fun v => v.kode_pelanggaran = k) ≠ [] := by
    intro e
    rw [e] at h
    simp at h
  obtain ⟨x, hx⟩ := List.exists_mem_of_ne_nil _ hne
  have hx' := List.mem_filter.mp hx
  exact ⟨x, hx'.1, by simpa using hx'.2⟩

/-- `keeps` value in the recent-conflict case. -/
theorem keeps_of_recent_conflict {now t : Int} {remote : List Violation}
    {L : LocalViolation} {R : Violation}
    (hk : L.v.kode_pelanggaran ≠ "")
    (hmap : mapLookup remote L.v.kode_pelanggaran = some R)
    (hst : R.status_tindak_lanjut ≠ L.v.status_tindak_lanjut)
    (hts : L.localTimestamp = some t) (ht0 : t ≠ 0)
    (hlt : now - t < 10 * 60 * 1000) :
    keeps now remote L = true := by
  have hrec : isRecent now L = true := by
    rw [isRecent, hts]
    simp [ht0]
    omega
  rw [keeps, if_neg hk, hmap]
  simp [hst, hrec]

/-- `keeps` value in the stale case: once a remote counterpart exists, a local
entry whose write is ten minutes old or older is never kept. -/
theorem keeps_false_of_stale {now t : Int} {remote : List Violation}
    {L : LocalViolation} {R : Violation}
    (hmap : mapLookup remote L.v.kode_pelanggaran = some R)
    (hts : L.localTimestamp = some t)
    (hge : 10 * 60 * 1000 ≤ now - t) :
    keeps now remote L = false := by
  have hrec : isRecent now L = false := by
    rw [isRecent, hts]
    have hnlt : ¬ now - t < 10 * 60 * 1000 := by omega
    simp [hnlt]
    omega
  rw [keeps]
  by_cases hk : L.v.kode_pelanggaran = ""
  · simp [hk]
  · rw [if_neg hk, hmap]
    simp [hrec]

/-- `keeps` value in the same-status case. -/
theorem keeps_false_of_same_status {now : Int} {remote : List Violation}
    {L : LocalViolation} {R : Violation}
    (hmap : mapLookup remote L.v.kode_pelanggaran = some R)
    (hst : R.status_tindak_lanjut = L.v.status_tindak_lanjut) :
    keeps now remote L = false := by
  rw [keeps]
  by_cases hk : L.v.kode_pelanggaran = ""
  · simp [hk]
  · rw [if_neg hk, hmap]
    simp [hst]

/-- `keeps` value in the genuinely-new case. -/
theorem keeps_of_new {now : Int} {remote : List Violation} {L : LocalViolation}
    (hk : L.v.kode_pelanggaran ≠ "")
    (hmap : mapLookup remote L.v.kode_pelanggaran = none)
    (hd : isFuzzyDuplicate remote L.v = false) :
    keeps now remote L = true := by
  rw [keeps, if_neg hk, hmap]
  simp [hd]

/-- `keeps` value in the fuzzy-duplicate case. -/
theorem keeps_false_of_dup {now : Int} {remote : List Violation} {L : LocalViolation}
    (hmap : mapLookup remote L.v.kode_pelanggaran = none)
    (hd : isFuzzyDuplicate remote L.v = true) :
    keeps now remote L = false := by
  rw [keeps]
  by_cases hk : L.v.kode_pelanggaran = ""
  · simp [hk]
  · rw [if_neg hk, hmap]
    simp [hd]

/-- One iteration in the recent-conflict case overwrites the first slot
holding the local entry's code and keeps the entry. -/
theorem reconcileStep_override {now : Int} {remote : List Violation}
    {st : List Violation × List LocalViolation} {l : LocalViolation} {R : Violation}
    (hk : l.v.kode_pelanggaran ≠ "")
    (hmap : mapLookup remote l.v.kode_pelanggaran = some R)
    (hst : R.status_tindak_lanjut ≠ l.v.status_tindak_lanjut)
    (hrec : isRecent now l = true) :
    reconcileStep now remote st l =
      (st.1.set (st.1.findIdx fun v => v.kode_pelanggaran = l.v.kode_pelanggaran) l.v,
        st.2 ++ [l]) := by
  unfold reconcileStep
  rw [if_neg hk, hmap]
  dsimp only
  rw [if_pos hst, if_pos hrec]

/-- One iteration in the stale-conflict case leaves the state unchanged. -/
theorem reconcileStep_stale {now : Int} {remote : List Violation}
    {st : List Violation × List LocalViolation} {l : LocalViolation} {R : Violation}
    (hk : l.v.kode_pelanggaran ≠ "")
    (hmap : mapLookup remote l.v.kode_pelanggaran = some R)
    (hrec : isRecent now l = false) :
    reconcileStep now remote st l = st := by
  unfold reconcileStep
  rw [if_neg hk, hmap]
  dsimp only
  by_cases hst : R.status_tindak_lanjut ≠ l.v.status_tindak_lanjut
  · rw [if_pos hst, if_neg (by simp [hrec])]
  · rw [if_neg hst]

/-- One iteration in the genuinely-new case appends the record to the merged
list and keeps the entry. -/
theorem reconcileStep_new {now : Int} {remote : List Violation}
    {st : List Violation × List LocalViolation} {l : LocalViolation}
    (hk : l.v.kode_pelanggaran ≠ "")
    (hmap : mapLookup remote l.v.kode_pelanggaran = none)
    (hd : isFuzzyDuplicate remote l.v = false) :
    reconcileStep now remote st l = (st.1 ++ [l.v], st.2 ++ [l]) := by
  unfold reconcileStep
  rw [if_neg hk, hmap]
  dsimp only
  rw [if_neg (by simp [hd])]

/-- One iteration in the fuzzy-duplicate case leaves the state unchanged. -/
theorem reconcileStep_dup {now : Int} {remote : List Violation}
    {st : List Violation × List LocalViolation} {l : LocalViolation}
    (hk : l.v.kode_pelanggaran ≠ "")
    (hmap : mapLookup remote l.v.kode_pelanggaran = none)
    (hd : isFuzzyDuplicate remote l.v = true) :
    reconcileStep now remote st l = st := by
  unfold reconcileStep
  rw [if_neg hk, hmap]
  dsimp only
  rw [if_pos hd]

/-- `reconcile` on a one-entry buffer is one iteration from the initial
state. -/
theorem reconcile_singleton (now : Int) (remote : List Violation) (L : LocalViolation) :
    reconcile now remote [L] = reconcileStep now remote (remote, []) L := by
  unfold reconcile
  rw [List.foldl_cons, List.foldl_nil]

/-- C1: for a buffered entry whose code has a remote counterpart with a
different follow-up status, an edit younger than ten minutes overwrites the
counterpart's slot in the merged output and stays in the valid-local subset,
while an edit ten minutes old or older leaves the merged output at the remote
value and is dropped from the buffer. -/
theorem reconcile_staleness_cutoff (now t : Int) (remote : List Violation)
    (buffer : List LocalViolation) (L : LocalViolation) (R : Violation)
    (hk : L.v.kode_pelanggaran ≠ "")
    (hmap : mapLookup remote L.v.kode_pelanggaran = some R)
    (hst : R.status_tindak_lanjut ≠ L.v.status_tindak_lanjut)
    (hts : L.localTimestamp = some t) (ht0 : t ≠ 0) :
    (now - t < 10 * 60 * 1000 →
      (L ∈ buffer → L ∈ (reconcile now remote buffer).2) ∧
      remote.findIdx (fun v => v.kode_pelanggaran = L.v.kode_pelanggaran) < remote.length ∧
      (remote.getD (remote.findIdx (fun v => v.kode_pelanggaran = L.v.kode_pelanggaran))
          blankViolation).kode_pelanggaran = L.v.kode_pelanggaran ∧
      reconcile now remote [L] =
        (remote.set (remote.findIdx (fun v => v.kode_pelanggaran = L.v.kode_pelanggaran)) L.v,
          [L])) ∧
    (10 * 60 * 1000 ≤ now - t →
      L ∉ (reconcile now remote buffer).2 ∧
      reconcile now remote [L] = (remote, [])) := by
  constructor
  · intro hlt
    have hkeeps := keeps_of_recent_conflict hk hmap hst hts ht0 hlt
    have hrec : isRecent now L = true := by
      rw [isRecent, hts]
      simp [ht0]
      omega
    have hexp : ∃ r ∈ remote,
        (fun v => decide (v.kode_pelanggaran = L.v.kode_pelanggaran)) r = true := by
      obtain ⟨r, hr, hrk⟩ := exists_kode_of_mapLookup_some hmap
      exact ⟨r, hr, by simpa using hrk⟩
    have hidx : remote.findIdx (fun v => v.kode_pelanggaran = L.v.kode_pelanggaran)
        < remote.length := List.findIdx_lt_length_of_exists hexp
    refine ⟨?_, hidx, ?_, ?_⟩
    · intro hmem
      rw [reconcile_snd]
      exact List.mem_filter.mpr ⟨hmem, hkeeps⟩
    · have hp := @List.findIdx_getElem _
        (fun v => decide (v.kode_pelanggaran = L.v.kode_pelanggaran)) remote hidx
      have hgd : remote.getD
          (remote.findIdx (fun v => v.kode_pelanggaran = L.v.kode_pelanggaran))
          blankViolation =
          remote[remote.findIdx (fun v => v.kode_pelanggaran = L.v.kode_pelanggaran)] := by
        simp [List.getD_eq_getElem?_getD, List.getElem?_eq_getElem hidx]
      rw [hgd]
      exact of_decide_eq_true hp
    · rw [reconcile_singleton, reconcileStep_override hk hmap hst hrec]
      rfl
  · intro hge
    have hkeeps := keeps_false_of_stale hmap hts hge
    have hrec : isRecent now L = false := by
      rw [isRecent, hts]
      have hnlt : ¬ now - t < 10 * 60 * 1000 := by omega
      simp [hnlt]
      omega
    constructor
    · intro hmem
      rw [reconcile_snd] at hmem
      have := (List.mem_filter.mp hmem).2
      rw [hkeeps] at this
      exact absurd this (by simp)
    · rw [reconcile_singleton, reconcileStep_stale hk hmap hrec]

/-- C1 witness: with the remote pair and the local resolved edit written at
clock 1000, reconciling 9 minutes later keeps and applies the override, and
reconciling 10 minutes 1 second later drops it and leaves remote intact. -/
theorem reconcile_staleness_cutoff_witness :
    (lvA ∈ (reconcile 541000 [rvA, rvB] [lvA]).2 ∧
      reconcile 541000 [rvA, rvB] [lvA] =
        ([rvA, rvB].set
          ([rvA, rvB].findIdx fun v => v.kode_pelanggaran = lvA.v.kode_pelanggaran) lvA.v,
          [lvA])) ∧
    (lvA ∉ (reconcile 602000 [rvA, rvB] [lvA]).2 ∧
      reconcile 602000 [rvA, rvB] [lvA] = ([rvA, rvB], [])) := by
  have h1 := reconcile_staleness_cutoff 541000 1000 [rvA, rvB] [lvA] lvA rvA
    (by decide) (by decide) (by decide) (by decide) (by decide)
  have h2 := reconcile_staleness_cutoff 602000 1000 [rvA, rvB] [lvA] lvA rvA
    (by decide) (by decide) (by decide) (by decide) (by decide)
  have h1r := h1.1 (by decide)
  have h2r := h2.2 (by decide)
  exact ⟨⟨h1r.1 (by decide), h1r.2.2.2⟩, ⟨h2r.1, h2r.2⟩⟩

/-- C2: a buffered entry whose code has no remote counterpart is dropped from
both the merged output and the valid-local subset when some remote record
matches it on student number, violation type label, point value and trimmed
description, and is appended to both when no such remote record exists. -/
theorem reconcile_fuzzy_dedup (now : Int) (remote : List Violation)
    (buffer : List LocalViolation) (L : LocalViolation)
    (hk : L.v.kode_pelanggaran ≠ "")
    (hmap : mapLookup remote L.v.kode_pelanggaran = none) :
    (isFuzzyDuplicate remote L.v = true →
      L ∉ (reconcile now remote buffer).2 ∧
      reconcile now remote [L] = (remote, [])) ∧
    (isFuzzyDuplicate remote L.v = false →
      (L ∈ buffer → L ∈ (reconcile now remote buffer).2) ∧
      reconcile now remote [L] = (remote ++ [L.v], [L])) := by
  constructor
  · intro hd
    have hkeeps := @keeps_false_of_dup now remote L hmap hd
    constructor
    · intro hmem
      rw [reconcile_snd] at hmem
      have := (List.mem_filter.mp hmem).2
      rw [hkeeps] at this
      exact absurd this (by simp)
    · rw [reconcile_singleton, reconcileStep_dup hk hmap hd]
  · intro hd
    have hkeeps := @keeps_of_new now remote L hk hmap hd
    constructor
    · intro hmem
      rw [reconcile_snd]
      exact List.mem_filter.mpr ⟨hmem, hkeeps⟩
    · rw [reconcile_singleton, reconcileStep_new hk hmap hd]
      rfl

/-- C2 witness: against the remote list `[rvA]`, the fuzzy-identical entry is
dropped entirely and the genuinely new entry is appended to both outputs. -/
theorem reconcile_fuzzy_dedup_witness :
    (lvDup ∉ (reconcile 0 [rvA] [lvDup]).2 ∧ reconcile 0 [rvA] [lvDup] = ([rvA], [])) ∧
    (lvNew ∈ (reconcile 0 [rvA] [lvNew]).2 ∧
      reconcile 0 [rvA] [lvNew] = ([rvA] ++ [lvNew.v], [lvNew])) := by
  have hd := reconcile_fuzzy_dedup 0 [rvA] [lvDup] lvDup (by decide) (by decide)
  have hn := reconcile_fuzzy_dedup 0 [rvA] [lvNew] lvNew (by decide) (by decide)
  have hd1 := hd.1 (by decide)
  have hn1 := hn.2 (by decide)
  exact ⟨⟨hd1.1, hd1.2⟩, ⟨hn1.1 (by decide), hn1.2⟩⟩

/-- C3: a buffered entry whose code has a remote counterpart with the same
follow-up status is dropped from the valid-local subset; consequently, for a
buffer all of whose entries are confirmed this way, the returned subset is
empty and a second reconcile over the unchanged remote set and the first
run's output buffer returns an empty subset again. -/
theorem reconcile_confirmed_idempotent (now now2 : Int) (remote : List Violation)
    (buffer : List LocalViolation) :
    (∀ L ∈ buffer, ∀ R, mapLookup remote L.v.kode_pelanggaran = some R →
      R.status_tindak_lanjut = L.v.status_tindak_lanjut →
      L ∉ (reconcile now remote buffer).2) ∧
    ((∀ L ∈ buffer, ∃ R, mapLookup remote L.v.kode_pelanggaran = some R ∧
        R.status_tindak_lanjut = L.v.status_tindak_lanjut) →
      (reconcile now remote buffer).2 = [] ∧
      (reconcile now2 remote ((reconcile now remote buffer).2)).2 = []) := by
  constructor
  · intro L hL R hmap hst hmem
    rw [reconcile_snd] at hmem
    have := (List.mem_filter.mp hmem).2
    rw [keeps_false_of_same_status hmap hst] at this
    exact absurd this (by simp)
  · intro hall
    have hempty : (reconcile now remote buffer).2 = [] := by
      rw [reconcile_snd]
      rw [List.filter_eq_nil_iff]
      intro L hL
      obtain ⟨R, hmap, hst⟩ := hall L hL
      rw [keeps_false_of_same_status hmap hst]
      simp
    refine ⟨hempty, ?_⟩
    rw [hempty]
    rfl

/-- C3 witness: a buffer holding only a confirmed copy of `rvA` is emptied by
the first reconcile, and a second reconcile over the result stays empty. -/
theorem reconcile_confirmed_idempotent_witness :
    lvConf ∉ (reconcile 5 [rvA, rvB] [lvConf]).2 ∧
    (reconcile 5 [rvA, rvB] [lvConf]).2 = [] ∧
    (reconcile 6 [rvA, rvB] ((reconcile 5 [rvA, rvB] [lvConf]).2)).2 = [] := by
  have h := reconcile_confirmed_idempotent 5 6 [rvA, rvB] [lvConf]
  have h2 := h.2 (by
    intro L hL
    rw [List.mem_singleton] at hL
    subst hL
    exact ⟨rvA, by decide, by decide⟩)
  exact ⟨h.1 lvConf (by decide) rvA (by decide) (by decide), h2.1, h2.2⟩

/-- `getD` on an append, inside the left part. -/
theorem getD_append_of_lt {α : Type} (xs ys : List α) (d : α) (i : Nat)
    (h : i < xs.length) : (xs ++ ys).getD i d = xs.getD i d := by
  simp [List.getD_eq_getElem?_getD, List.getElem?_append_left h]

/-- `getD` of a singleton append at the old length. -/
theorem getD_append_length {α : Type} (xs : List α) (y d : α) :
    (xs ++ [y]).getD xs.length d = y := by
  simp [List.getD_eq_getElem?_getD, List.getElem?_append_right (Nat.le_refl xs.length)]

/-- `getD` after `set` at the written index. -/
theorem getD_set_eq_of_lt {α : Type} (xs : List α) (i : Nat) (a d : α)
    (h : i < xs.length) : (xs.set i a).getD i d = a := by
  simp [List.getD_eq_getElem?_getD, List.getElem?_set_self h]

/-- `getD` after `set` at a different index. -/
theorem getD_set_ne_idx {α : Type} (xs : List α) (i j : Nat) (a d : α)
    (h : i ≠ j) : (xs.set i a).getD j d = xs.getD j d := by
  simp [List.getD_eq_getElem?_getD, List.getElem?_set_ne h]

/-- `findIdx` is minimal: it is at most any index whose element satisfies the
predicate. -/
theorem findIdx_le_of_getD {p : Violation → Bool} {xs : List Violation} {k : Nat}
    (hk : k < xs.length) (hp : p (xs.getD k blankViolation) = true) :
    xs.findIdx p ≤ k := by
  rcases Nat.lt_or_ge k (xs.findIdx p) with hlt | hge
  · have hfalse := List.not_of_lt_findIdx hlt
    have hD : xs.getD k blankViolation = xs[k] := by
      simp [List.getD_eq_getElem?_getD, List.getElem?_eq_getElem hk]
    rw [hD] at hp
    rw [hp] at hfalse
    exact absurd hfalse (by simp)
  · exact hge

/-- Under the invariant, codes at remote positions agree between the merged
and the remote list. -/
theorem MergedInv_kode_agree {remote : List Violation} {B : List LocalViolation}
    {merged : List Violation} (h : MergedInv remote B merged)
    {i : Nat} (hi : i < remote.length) :
    (merged.getD i blankViolation).kode_pelanggaran =
      (remote.getD i blankViolation).kode_pelanggaran := by
  rcases h.2.1 i hi with heq | ⟨l, -, heq, hkode⟩
  · rw [heq]
  · rw [heq, hkode]

/-- The loop iteration skips entries with an empty code. -/
theorem reconcileStep_skip_kode {now : Int} {remote : List Violation}
    {st : List Violation × List LocalViolation} {l : LocalViolation}
    (hk : l.v.kode_pelanggaran = "") : reconcileStep now remote st l = st := by
  unfold reconcileStep
  rw [if_pos hk]

/-- The loop iteration leaves the state unchanged when the remote counterpart
already has the local status. -/
theorem reconcileStep_same_status {now : Int} {remote : List Violation}
    {st : List Violation × List LocalViolation} {l : LocalViolation} {R : Violation}
    (hmap : mapLookup remote l.v.kode_pelanggaran = some R)
    (hst : R.status_tindak_lanjut = l.v.status_tindak_lanjut) :
    reconcileStep now remote st l = st := by
  by_cases hk : l.v.kode_pelanggaran = ""
  · exact reconcileStep_skip_kode hk
  · unfold reconcileStep
    rw [if_neg hk, hmap]
    dsimp only
    rw [if_neg (by simp [hst])]

/-- One loop iteration preserves the merge invariant. -/
theorem reconcileStep_preserves_MergedInv {now : Int} {remote : List Violation}
    {B : List LocalViolation} {st : List Violation × List LocalViolation}
    {l : LocalViolation} (hl : l ∈ B) (h : MergedInv remote B st.1) :
    MergedInv remote B (reconcileStep now remote st l).1 := by
  by_cases hk : l.v.kode_pelanggaran = ""
  · rw [reconcileStep_skip_kode hk]
    exact h
  cases hmap : mapLookup remote l.v.kode_pelanggaran with
  | none =>
    by_cases hd : isFuzzyDuplicate remote l.v
    · rw [reconcileStep_dup hk hmap hd]
      exact h
    · rw [reconcileStep_new hk hmap (by simpa using hd)]
      refine ⟨?_, ?_, ?_⟩
      · have := h.1
        rw [List.length_append]
        simp only [List.length_singleton]
        omega
      · intro i hi
        have hilt : i < st.1.length := Nat.lt_of_lt_of_le hi h.1
        rw [getD_append_of_lt st.1 [l.v] blankViolation i hilt]
        exact h.2.1 i hi
      · intro j hj1 hj2
        rw [List.length_append, List.length_singleton] at hj2
        by_cases hjl : j < st.1.length
        · rw [getD_append_of_lt st.1 [l.v] blankViolation j hjl]
          exact h.2.2 j hj1 hjl
        · have hje : j = st.1.length := by omega
          subst hje
          rw [getD_append_length]
          exact ⟨l, hl, rfl⟩
  | some sheetV =>
    by_cases hst : sheetV.status_tindak_lanjut ≠ l.v.status_tindak_lanjut
    · by_cases hrec : isRecent now l
      · rw [reconcileStep_override hk hmap hst hrec]
        obtain ⟨r, hr, hrk⟩ := exists_kode_of_mapLookup_some hmap
        obtain ⟨ir, hir, hre⟩ := List.getElem_of_mem hr
        have hirD : remote.getD ir blankViolation = r := by
          simp [List.getD_eq_getElem?_getD, List.getElem?_eq_getElem hir, hre]
        have hirlt : ir < st.1.length := Nat.lt_of_lt_of_le hir h.1
        have hstk : ((fun v => v.kode_pelanggaran = l.v.kode_pelanggaran) <|
            st.1.getD ir blankViolation : Bool) = true := by
          have := MergedInv_kode_agree h hir
          simp only [decide_eq_true_eq]
          rw [this, hirD, hrk]
        have hidxle : st.1.findIdx (fun v => v.kode_pelanggaran = l.v.kode_pelanggaran) ≤ ir :=
          findIdx_le_of_getD hirlt hstk
        have hidxrem : st.1.findIdx (fun v => v.kode_pelanggaran = l.v.kode_pelanggaran)
            < remote.length := Nat.lt_of_le_of_lt hidxle hir
        have hidxlt : st.1.findIdx (fun v => v.kode_pelanggaran = l.v.kode_pelanggaran)
            < st.1.length := Nat.lt_of_lt_of_le hidxrem h.1
        have hpidx := @List.findIdx_getElem _
          (fun v => decide (v.kode_pelanggaran = l.v.kode_pelanggaran)) st.1 hidxlt
        have hidxkode : (st.1.getD
            (st.1.findIdx (fun v => v.kode_pelanggaran = l.v.kode_pelanggaran))
            blankViolation).kode_pelanggaran = l.v.kode_pelanggaran := by
          have hD : st.1.getD
              (st.1.findIdx (fun v => v.kode_pelanggaran = l.v.kode_pelanggaran))
              blankViolation = st.1[st.1.findIdx
                (fun v => v.kode_pelanggaran = l.v.kode_pelanggaran)] := by
            simp [List.getD_eq_getElem?_getD, List.getElem?_eq_getElem hidxlt]
          rw [hD]
          exact of_decide_eq_true hpidx
        have hremkode : l.v.kode_pelanggaran = (remote.getD
            (st.1.findIdx (fun v => v.kode_pelanggaran = l.v.kode_pelanggaran))
            blankViolation).kode_pelanggaran := by
          rw [← MergedInv_kode_agree h hidxrem, hidxkode]
        refine ⟨?_, ?_, ?_⟩
        · rw [List.length_set]
          exact h.1
        · intro i hi
          by_cases hie : st.1.findIdx (fun v => v.kode_pelanggaran = l.v.kode_pelanggaran) = i
          · subst hie
            rw [getD_set_eq_of_lt st.1 _ l.v blankViolation hidxlt]
            exact Or.inr ⟨l, hl, rfl, hremkode⟩
          · rw [getD_set_ne_idx st.1 _ i l.v blankViolation hie]
            exact h.2.1 i hi
        · intro j hj1 hj2
          rw [List.length_set] at hj2
          have hne : st.1.findIdx (fun v => v.kode_pelanggaran = l.v.kode_pelanggaran) ≠ j := by
            omega
          rw [getD_set_ne_idx st.1 _ j l.v blankViolation hne]
          exact h.2.2 j hj1 hj2
      · rw [reconcileStep_stale hk hmap (by simpa using hrec)]
        exact h
    · rw [reconcileStep_same_status hmap (by simpa using hst)]
      exact h

/-- Folding any sublist of the buffer preserves the merge invariant. -/
theorem foldl_preserves_MergedInv {now : Int} {remote : List Violation}
    {B : List LocalViolation} (bs : List LocalViolation)
    (hbs : ∀ x ∈ bs, x ∈ B) (st : List Violation × List LocalViolation)
    (h : MergedInv remote B st.1) :
    MergedInv remote B ((bs.foldl (reconcileStep now remote) st)).1 := by
  induction bs generalizing st with
  | nil => exact h
  | cons b bs ih =>
    rw [List.foldl_cons]
    exact ih (fun x hx => hbs x (List.mem_cons_of_mem b hx)) _
      (reconcileStep_preserves_MergedInv (hbs b (List.mem_cons_self b bs)) h)

/-- C10: reconcile never removes or reorders remote records — each position
below the remote length holds, in remote order, either the remote record
unchanged or a buffered record with the same violation code, and every
position past the remote length holds an appended buffered record. -/
theorem reconcile_frame (now : Int) (remote : List Violation)
    (buffer : List LocalViolation) :
    remote.length ≤ (reconcile now remote buffer).1.length ∧
    (∀ i, i < remote.length →
      (reconcile now remote buffer).1.getD i blankViolation =
          remote.getD i blankViolation ∨
      ∃ l, l ∈ buffer ∧ (reconcile now remote buffer).1.getD i blankViolation = l.v ∧
        l.v.kode_pelanggaran = (remote.getD i blankViolation).kode_pelanggaran) ∧
    (∀ j, remote.length ≤ j → j < (reconcile now remote buffer).1.length →
      ∃ l, l ∈ buffer ∧ (reconcile now remote buffer).1.getD j blankViolation = l.v) := by
  have base : MergedInv remote buffer remote :=
    ⟨Nat.le_refl _, fun i _ => Or.inl rfl, fun j hj1 hj2 => absurd hj2 (by omega)⟩
  exact foldl_preserves_MergedInv buffer (fun x hx => hx) (remote, []) base

/-- C10 witness: over the remote pair and a buffer holding one recent edit
and one new entry, position 0 is an override or the remote record, position 1
is untouched, and position 2 is an appended buffer entry. -/
theorem reconcile_frame_witness :
    (([rvA, rvB] : List Violation).length ≤ (reconcile 541000 [rvA, rvB] [lvA, lvNew]).1.length) ∧
    ((reconcile 541000 [rvA, rvB] [lvA, lvNew]).1.getD 0 blankViolation =
        ([rvA, rvB] : List Violation).getD 0 blankViolation ∨
      ∃ l, l ∈ [lvA, lvNew] ∧
        (reconcile 541000 [rvA, rvB] [lvA, lvNew]).1.getD 0 blankViolation = l.v ∧
        l.v.kode_pelanggaran = (([rvA, rvB] : List Violation).getD 0 blankViolation).kode_pelanggaran) ∧
    (∃ l, l ∈ [lvA, lvNew] ∧
      (reconcile 541000 [rvA, rvB] [lvA, lvNew]).1.getD 2 blankViolation = l.v) := by
  have h := reconcile_frame 541000 [rvA, rvB] [lvA, lvNew]
  exact ⟨h.1, h.2.1 0 (by decide), h.2.2 2 (by decide) (by decide)⟩
